import Mathlib

/-!
# A shallow embedding of the rlsf/minitlsf TLSF allocator core

This file models the TLSF allocator core found in `src/src/tlsf.rs`
(the `minitlsf` crate) and the size-class mapper in
`src/crates/rlsf/src/tlsf/map.rs`, and proves or refutes the frozen
claims about them.

Machine integers (`usize`) are modelled as `Nat`; wrapping operations
carry an explicit `% 2^W` where `W` is the platform word width.  The
word-level bit operations of the source act on machine words and are
embedded by their arithmetic meaning on `Nat` values below `2^W`:

* `x & ((1 << k) - 1)`   becomes `x % 2^k`;
* `x & !((1 << k) - 1)`  becomes `alignDown x (2^k) = x - x % 2^k`;
* `x | (1 << i)` / `x & !(1 << i)` become `setBit` / `clearBit`;
* `x & (1 << i) != 0`    becomes `bit x i`.

The platform is abstracted by `g = GRANULARITY_LOG2`; the Rust code fixes
`GRANULARITY = 4 * size_of::<usize>()`, hence `W = 2^(g+1)` on all
supported targets (16/32/64-bit give `g = 3/4/5`).
-/

namespace Rlsf

/-- Compile-time parameters of a `Tlsf` instantiation:
`g = GRANULARITY_LOG2`, `sli = SLLEN.log2()`, `fllen = FLLEN`. -/
structure Params where
  g : Nat
  sli : Nat
  fllen : Nat
deriving Repr, DecidableEq

/-- `USIZE_BITS`.  On every target supported by the source,
`size_of::<usize>() = 2^(g-2)` bytes, so the word is `2^(g+1)` bits. -/
def usizeBits (p : Params) : Nat := 2 ^ (p.g + 1)

/-- `GRANULARITY = size_of::<usize>() * 4 = 2^g`. -/
def GRANULARITY (p : Params) : Nat := 2 ^ p.g

/-- One past the largest `usize` value. -/
def wordMod (p : Params) : Nat := 2 ^ usizeBits p

/-- `SLLEN = 2^sli` (the source const-asserts `SLLEN.is_power_of_two()`). -/
def sllen (p : Params) : Nat := 2 ^ p.sli

/-- Validity constraints mirroring the source's compile-time checks
(`Tlsf::VALID` requires `FLLEN, SLLEN ≥ 1`; the platform fixes `g ∈ {3,4,5}`
and every bitmap word, hence `SLLEN`, fits the machine word). -/
def Params.Valid (p : Params) : Prop :=
  3 ≤ p.g ∧ 1 ≤ p.fllen ∧ p.sli + 1 < usizeBits p

instance (p : Params) : Decidable p.Valid := by
  unfold Params.Valid; infer_instance

/-- Bit `i` of the word `x`: `x & (1 << i) != 0`. -/
def bit (x i : Nat) : Bool := x / 2 ^ i % 2 = 1

/-- Modelled from the spec: `BinInteger::set_bit` from the missing
`src/src/int.rs` ("set/clear/test bit over a fixed-width unsigned word"):
`x |= 1 << i`. -/
def setBit (x i : Nat) : Nat := if bit x i then x else x + 2 ^ i

/-- Modelled from the spec: `BinInteger::clear_bit` from the missing
`src/src/int.rs`: `x &= !(1 << i)` on a machine word. -/
def clearBit (x i : Nat) : Nat := if bit x i then x - 2 ^ i else x

/-- `x & !(a - 1)` for a power-of-two `a`, i.e. round `x` down to a
multiple of `a`. -/
def alignDown (x a : Nat) : Nat := x - x % a

/-- `usize::checked_add`. -/
def checkedAdd (w a b : Nat) : Option Nat :=
  if a + b < 2 ^ w then some (a + b) else none

/-- `usize::wrapping_sub` (for `b ≤ 2^w`). -/
def wrappingSub (w a b : Nat) : Nat := (a + 2 ^ w - b) % 2 ^ w

/-- Fuel-driven binary logarithm; computes `Nat.log2` by structural
recursion so that it evaluates inside the kernel (see `ilog2_eq_log2`). -/
def log2Fueled : Nat → Nat → Nat
  | 0, _ => 0
  | fuel + 1, n => if 2 ≤ n then log2Fueled fuel (n / 2) + 1 else 0

/-- `usize::leading_zeros` complement: `⌊log2 n⌋` (0 for `n = 0`). -/
def ilog2 (n : Nat) : Nat := log2Fueled n n

/-- Modelled from the spec: `BinInteger::bit_scan_forward` from the missing
`src/src/int.rs` ("constant-time bit scan"); per the spec of the search
(§4.3.2) it yields the first set bit at an index `≥ start`, and the callers
treat an out-of-width result as "not found" (modelled by `none`). -/
def bitScanForward (x start : Nat) : Option Nat :=
  (List.range (ilog2 x + 1)).find? fun i => decide (start ≤ i) && bit x i

/-- `MapParams::map_floor` / `Tlsf::map_floor` (src/crates/rlsf/src/tlsf/map.rs:19,
src/src/tlsf.rs:233).  `fl = USIZE_BITS - GRANULARITY_LOG2 - 1 -
size.leading_zeros()`, which equals `log2 size - g` for `size ≥ GRANULARITY`. -/
def map_floor (p : Params) (size : Nat) : Option (Nat × Nat) :=
  let fl := ilog2 size - p.g
  let sl :=
    if p.g < p.sli ∧ fl < p.sli - p.g then
      size * 2 ^ (p.sli - p.g - fl) % wordMod p
    else
      size / 2 ^ (fl + p.g - p.sli)
  if p.fllen ≤ fl then none else some (fl, sl % sllen p)

/-- `MapParams::map_ceil` / `Tlsf::map_ceil` (src/crates/rlsf/src/tlsf/map.rs:46,
src/src/tlsf.rs:260). -/
def map_ceil (p : Params) (size : Nat) : Option (Nat × Nat) :=
  let fl := ilog2 size - p.g
  let flsl :=
    if p.g < p.sli ∧ fl < p.sli - p.g then
      (fl, size * 2 ^ (p.sli - p.g - fl) % wordMod p)
    else
      let shift := fl + p.g - p.sli
      let sl := size / 2 ^ shift
      let sl := sl + (if sl * 2 ^ shift % wordMod p ≠ size then 1 else 0)
      (fl + sl / 2 ^ (p.sli + 1), sl)
  if p.fllen ≤ flsl.1 then none else some (flsl.1, flsl.2 % sllen p)

/-- The input bound computed by `map_ceil_and_unmap`
(src/crates/rlsf/src/tlsf/map.rs:84): `max1 = !(usize::MAX >> (sli + 1))`
adjusted for a finite `FLLEN`; `!x` on a `W`-bit word is `2^W - 1 - x`. -/
def mcauBound (p : Params) : Nat :=
  let w := usizeBits p
  let max1 := (wordMod p - 1) - (wordMod p - 1) / 2 ^ (p.sli + 1)
  if p.fllen - 1 < w - p.g - 1 then max1 / 2 ^ ((w - p.g - 1) - (p.fllen - 1))
  else max1

/-- `MapParams::map_ceil_and_unmap` (src/crates/rlsf/src/tlsf/map.rs:80). -/
def map_ceil_and_unmap (p : Params) (size : Nat) : Option Nat :=
  if mcauBound p < size then none
  else
    let fl := ilog2 size - p.g
    if p.g < p.sli ∧ fl < p.sli - p.g then some size
    else
      let shift := fl + p.g - p.sli
      some (alignDown (size + (2 ^ shift - 1)) (2 ^ shift))

/-- `Tlsf::MAX_POOL_SIZE` (src/src/tlsf.rs:213). -/
def maxPoolSize (p : Params) : Option Nat :=
  let shift := p.g + p.fllen
  if shift < usizeBits p then some (2 ^ shift - GRANULARITY p)
  else if shift = usizeBits p then some (wordMod p - GRANULARITY p)
  else none

/-- The in-band header state of one block, as read/written by the source:
`BlockHdr::size`, `BlockHdr::prev_phys_block`, and (meaningful only while
the block is free) `FreeBlockHdr::{next_free, prev_free}`. -/
structure BlockRec where
  sizeWord : Nat
  prevPhys : Option Nat
  nextFree : Option Nat
  prevFree : Option Nat
deriving Repr, DecidableEq

instance : Inhabited BlockRec := ⟨⟨0, none, none, none⟩⟩

/-- The state of a `Tlsf` instance together with the header words it owns in
pool memory.  `mem` maps a block header address to its header fields;
`crumbs` maps an address to the header-pointer word that `allocate` stores
immediately before an over-aligned payload. -/
structure TlsfState where
  flBitmap : Nat
  slBitmap : Nat → Nat
  firstFree : Nat → Nat → Option Nat
  mem : Nat → Option BlockRec
  crumbs : Nat → Option Nat

/-- `Tlsf::INIT`: everything zero / empty. -/
def INIT : TlsfState :=
  ⟨0, fun _ => 0, fun _ _ => none, fun _ => none, fun _ => none⟩

def updSL (f : Nat → Nat) (fl v : Nat) : Nat → Nat :=
  fun i => if i = fl then v else f i

def updFF (f : Nat → Nat → Option Nat) (fl sl : Nat) (v : Option Nat) :
    Nat → Nat → Option Nat :=
  fun i j => if i = fl ∧ j = sl then v else f i j

def updMem (m : Nat → Option BlockRec) (a : Nat) (r : BlockRec) :
    Nat → Option BlockRec :=
  fun x => if x = a then some r else m x

def updCrumb (c : Nat → Option Nat) (a v : Nat) : Nat → Option Nat :=
  fun x => if x = a then some v else c x

/-- Dereference a header pointer.  A valid pointer always finds a record;
the default mirrors reading uninitialized memory deterministically. -/
def getRec (m : Nat → Option BlockRec) (a : Nat) : BlockRec :=
  (m a).getD default

def setSizeWordOf (m : Nat → Option BlockRec) (a v : Nat) :
    Nat → Option BlockRec :=
  updMem m a { getRec m a with sizeWord := v }

def setPrevPhysOf (m : Nat → Option BlockRec) (a : Nat) (v : Option Nat) :
    Nat → Option BlockRec :=
  updMem m a { getRec m a with prevPhys := v }

def setPrevFreeOf (m : Nat → Option BlockRec) (a : Nat) (v : Option Nat) :
    Nat → Option BlockRec :=
  updMem m a { getRec m a with prevFree := v }

def setNextFreeOf (m : Nat → Option BlockRec) (a : Nat) (v : Option Nat) :
    Nat → Option BlockRec :=
  updMem m a { getRec m a with nextFree := v }

/-- Writing `block.as_mut().common = BlockHdr { size, prev_phys_block }`:
only the two `BlockHdr` words are stored. -/
def setCommonOf (m : Nat → Option BlockRec) (a size : Nat) (pp : Option Nat) :
    Nat → Option BlockRec :=
  updMem m a { getRec m a with sizeWord := size, prevPhys := pp }

/-- `BlockHdr::next_phys_block` (src/src/tlsf.rs:133): `None` when
`SIZE_LAST_IN_POOL` (bit 1) is set, else `self + (size & SIZE_SIZE_MASK)`. -/
def next_phys_block (p : Params) (a sizeWord : Nat) : Option Nat :=
  if bit sizeWord 1 then none
  else some (a + alignDown sizeWord (GRANULARITY p))

/-- `Tlsf::link_free_block` (src/src/tlsf.rs:300).  Pushes `block` at the
head of list `map_floor size` and sets the bitmap bits.  Note that, like the
source, it does **not** update the old head's `prev_free`.  The `map_floor`
failure case is `unreachable_unchecked` in the source; the model returns the
state unchanged there. -/
def link_free_block (p : Params) (s : TlsfState) (block size : Nat) :
    TlsfState :=
  match map_floor p size with
  | none => s
  | some (fl, sl) =>
    let nextFree := s.firstFree fl sl
    { flBitmap := setBit s.flBitmap fl
      slBitmap := updSL s.slBitmap fl (setBit (s.slBitmap fl) sl)
      firstFree := updFF s.firstFree fl sl (some block)
      mem := updMem s.mem block
        { getRec s.mem block with nextFree := nextFree, prevFree := none }
      crumbs := s.crumbs }

/-- `Tlsf::unlink_free_block` (src/src/tlsf.rs:318). -/
def unlink_free_block (p : Params) (s : TlsfState) (block size : Nat) :
    TlsfState :=
  let r := getRec s.mem block
  let s1 :=
    match r.nextFree with
    | some nf => { s with mem := setPrevFreeOf s.mem nf r.prevFree }
    | none => s
  match r.prevFree with
  | some pf => { s1 with mem := setNextFreeOf s1.mem pf r.nextFree }
  | none =>
    match map_floor p size with
    | none => s1
    | some (fl, sl) =>
      let s2 := { s1 with firstFree := updFF s1.firstFree fl sl r.nextFree }
      if r.nextFree = none then
        let row := clearBit (s2.slBitmap fl) sl
        let s3 := { s2 with slBitmap := updSL s2.slBitmap fl row }
        if row = 0 then { s3 with flBitmap := clearBit s3.flBitmap fl }
        else s3
      else s2

/-- The loop body of `Tlsf::insert_free_block_ptr` (src/src/tlsf.rs:400).
The source iterates `while size > 0`, carving `chunk_size =
size.min(MAX_POOL_SIZE)` but writing every chunk header at the *same*
address `start` (the cursor is never advanced).  The fuel argument makes the
recursion structural; `fuel = size` suffices for any valid `Params`
(each iteration consumes `chunk_size ≥ 1`). -/
def insertChunks (p : Params) (start : Nat) :
    Nat → TlsfState → Nat → TlsfState
  | 0, s, _ => s
  | _, s, 0 => s
  | fuel + 1, s, size =>
    let chunkSize :=
      match maxPoolSize p with
      | some m => min size m
      | none => size
    -- `size: chunk_size | SIZE_LAST_IN_POOL, prev_phys_block: None`
    let s1 := { s with mem := setCommonOf s.mem start (setBit chunkSize 1) none }
    let s2 := link_free_block p s1 start chunkSize
    insertChunks p start fuel s2 (size - chunkSize)

/-- `Tlsf::insert_free_block_ptr` (src/src/tlsf.rs:375): round the start up
and the length down to `GRANULARITY`, bail out if fewer than `GRANULARITY`
bytes remain, then run the chunk loop. -/
def insert_free_block_ptr (p : Params) (s : TlsfState) (addr len : Nat) :
    TlsfState :=
  let G := GRANULARITY p
  let start := alignDown ((addr + (G - 1)) % wordMod p) G
  let rest := len - wrappingSub (usizeBits p) start addr
  -- `len.checked_sub(..)` fails exactly when truncated subtraction gives 0 < G
  if rest < G then s
  else insertChunks p start rest s (alignDown rest G)

/-- The second phase of the free-list search: scan `fl_bitmap` above `fl`,
then take the lowest set bit of that row (src/src/tlsf.rs:618). -/
def searchFlPhase (p : Params) (s : TlsfState) (fl : Nat) :
    Option (Nat × Nat) :=
  match bitScanForward s.flBitmap (fl + 1) with
  | none => none
  | some fl2 =>
    if fl2 < p.fllen then
      match bitScanForward (s.slBitmap fl2) 0 with
      | some sl2 => if sl2 < sllen p then some (fl2, sl2) else none
      | none => none
    else none

/-- `Tlsf::search_suitable_free_block_list_for_allocation`
(src/src/tlsf.rs:603). -/
def searchSuitable (p : Params) (s : TlsfState) (minSize : Nat) :
    Option (Nat × Nat) :=
  match map_ceil p minSize with
  | none => none
  | some (fl, sl) =>
    match bitScanForward (s.slBitmap fl) sl with
    | some sl2 => if sl2 < sllen p then some (fl, sl2) else searchFlPhase p s fl
    | none => searchFlPhase p s fl

/-- The head-unlink step of `Tlsf::allocate_initializing_by`
(src/src/tlsf.rs:513): if the head block has a successor, make it the new
head and clear its `prev_free`; otherwise clear the bitmap bits — leaving
the stale head pointer in `first_free` untouched, exactly as the source
does. -/
def popHead (p : Params) (s : TlsfState) (fl sl block : Nat) : TlsfState :=
  match (getRec s.mem block).nextFree with
  | some nf =>
    { s with mem := setPrevFreeOf s.mem nf none,
             firstFree := updFF s.firstFree fl sl (some nf) }
  | none =>
    if clearBit (s.slBitmap fl) sl = 0 then
      { s with slBitmap := updSL s.slBitmap fl (clearBit (s.slBitmap fl) sl),
               flBitmap := clearBit s.flBitmap fl }
    else
      { s with slBitmap := updSL s.slBitmap fl (clearBit (s.slBitmap fl) sl) }

/-- The search size computed at the top of `Tlsf::allocate_initializing_by`
(src/src/tlsf.rs:494): `layout.size() + max_overhead`, rounded up to
`GRANULARITY`, with both additions checked for overflow.
`align.saturating_sub(G/2)` is plain truncated `Nat` subtraction. -/
def searchSizeOf (p : Params) (size align : Nat) : Option Nat :=
  let G := GRANULARITY p
  let maxOverhead := (align - G / 2) + G / 2
  match checkedAdd (usizeBits p) size maxOverhead with
  | none => none
  | some t =>
    match checkedAdd (usizeBits p) t (G - 1) with
    | none => none
    | some t2 => some (alignDown t2 G)

/-- `Tlsf::allocate` / `allocate_initializing_by` (src/src/tlsf.rs:472,481)
for a layout `(size, align)`.  Returns the payload pointer (if any) and the
state after the call.  The `unreachable_unchecked` paths of the source
(empty head for a set bitmap bit) return `(none, s)` here. -/
def allocate (p : Params) (s : TlsfState) (size align : Nat) :
    Option Nat × TlsfState :=
  let G := GRANULARITY p
  match searchSizeOf p size align with
  | none => (none, s)
  | some searchSize =>
    match searchSuitable p s searchSize with
    | none => (none, s)
    | some (fl, sl) =>
      match s.firstFree fl sl with
      | none => (none, s)
      | some block =>
        let sizeAndFlags := (getRec s.mem block).sizeWord
        let nextPhys := next_phys_block p block sizeAndFlags
        let s1 := popHead p s fl sl block
        let unalignedPtr := block + G / 2
        let ptr := alignDown ((unalignedPtr + (align - 1)) % wordMod p) align
        let s2 :=
          if G ≤ align then
            { s1 with crumbs := updCrumb s1.crumbs (ptr - G / 4) block }
          else s1
        let overhead := ptr - block
        let newSize := alignDown ((overhead + size) + (G - 1)) G
        if newSize = clearBit sizeAndFlags 1 then
          (some ptr,
           { s2 with mem := setSizeWordOf s2.mem block (setBit sizeAndFlags 0) })
        else
          let newFreeBlock := block + newSize
          let newFreeSF := sizeAndFlags - newSize
          let s3 :=
            match nextPhys with
            | some nb =>
              { s2 with mem := setPrevPhysOf s2.mem nb (some newFreeBlock) }
            | none => s2
          let s4 :=
            { s3 with
              mem := setCommonOf s3.mem newFreeBlock newFreeSF (some block) }
          let s5 := link_free_block p s4 newFreeBlock
            (alignDown newFreeSF G)
          (some ptr,
           { s5 with mem := setSizeWordOf s5.mem block (setBit newSize 0) })

/-- `Tlsf::used_block_hdr_for_allocation` (src/src/tlsf.rs:647): over-aligned
payloads read the header pointer stored one word before the payload; others
find the header `GRANULARITY/2` bytes below.  `none` models reading a word
that was never written. -/
def used_block_hdr_for_allocation (p : Params) (s : TlsfState)
    (ptr align : Nat) : Option Nat :=
  if GRANULARITY p ≤ align then s.crumbs (ptr - GRANULARITY p / 4)
  else some (ptr - GRANULARITY p / 2)

/-- The tail of `Tlsf::deallocate` (src/src/tlsf.rs:727): write the merged
block's size word, link it into the list given by
`map_floor(size & !SIZE_LAST_IN_POOL)`, and re-point the next physical
block's `prev_phys_block` at it. -/
def writeAndLinkFree (p : Params) (s : TlsfState) (block2 size2 : Nat)
    (newNext : Option Nat) : TlsfState :=
  let s3 := { s with mem := setSizeWordOf s.mem block2 size2 }
  let s4 := link_free_block p s3 block2 (clearBit size2 1)
  match newNext with
  | some nn => { s4 with mem := setPrevPhysOf s4.mem nn (some block2) }
  | none => s4

/-- `Tlsf::deallocate` (src/src/tlsf.rs:671), additionally reporting the
address of the (possibly merged) block that was linked back to a free list.
The returned address is meaningful only when the header lookup succeeds. -/
def deallocateCore (p : Params) (s : TlsfState) (ptr align : Nat) :
    TlsfState × Nat :=
  match used_block_hdr_for_allocation p s ptr align with
  | none => (s, 0)
  | some block =>
    -- `size = block.size & !SIZE_USED`
    let size0 := clearBit (getRec s.mem block).sizeWord 0
    let fwd :=
      match next_phys_block p block ((getRec s.mem block).sizeWord) with
      | some np =>
        let npSF := (getRec s.mem np).sizeWord
        if bit npSF 0 then (size0, some np, s)
        else
          (size0 + npSF, next_phys_block p np npSF,
           unlink_free_block p s np (alignDown npSF (GRANULARITY p)))
      | none => (size0, (none : Option Nat), s)
    let size1 := fwd.1
    let newNextPhys := fwd.2.1
    let s1 := fwd.2.2
    let bwd :=
      match (getRec s1.mem block).prevPhys with
      | some pb =>
        let pbSF := (getRec s1.mem pb).sizeWord
        if bit pbSF 0 then (size1, block, s1)
        else (size1 + pbSF, pb, unlink_free_block p s1 pb pbSF)
      | none => (size1, block, s1)
    let size2 := bwd.1
    let block2 := bwd.2.1
    let s2 := bwd.2.2
    (writeAndLinkFree p s2 block2 size2 newNextPhys, block2)

/-- `Tlsf::deallocate`, state only. -/
def deallocate (p : Params) (s : TlsfState) (ptr align : Nat) : TlsfState :=
  (deallocateCore p s ptr align).1

/-- `Tlsf::reallocate_without_moving` (src/src/tlsf.rs:822).  `newLayoutSize`
is the already-granularity-rounded requested size.  The shrink branch
mirrors the source's `shrink_by = new_size - old_size` — computed when
`new_size < old_size`, i.e. a wrapping unsigned underflow in release builds
(an overflow panic in debug builds) — with `usize` wrap-around made
explicit. -/
def reallocate_without_moving (p : Params) (s : TlsfState)
    (ptr block newLayoutSize : Nat) : Option Nat × TlsfState :=
  let W := usizeBits p
  let overhead := ptr - block
  match checkedAdd W overhead newLayoutSize with
  | none => (none, s)
  | some newSize =>
    let oldSize := alignDown ((getRec s.mem block).sizeWord) (GRANULARITY p)
    if oldSize < newSize then
      -- grow toward the end
      let growBy := newSize - oldSize
      match next_phys_block p block ((getRec s.mem block).sizeWord) with
      | none => (none, s)
      | some np =>
        let npSF := (getRec s.mem np).sizeWord
        let npSize := alignDown npSF (GRANULARITY p)
        if bit npSF 0 then (none, s)
        else
          let nnp := next_phys_block p np npSF
          if npSize < growBy then (none, s)
          else
            let s1 := unlink_free_block p s np npSize
            if growBy < npSize then
              let npSF2 := npSF - growBy
              let npSize2 := npSize - growBy
              let np2 := block + newSize
              let s2 :=
                { s1 with mem := setCommonOf s1.mem np2 npSF2 (some block) }
              let s3 := link_free_block p s2 np2 npSize2
              let s4 :=
                match nnp with
                | some x => { s3 with mem := setPrevPhysOf s3.mem x (some np2) }
                | none => s3
              (some ptr,
               { s4 with mem := setSizeWordOf s4.mem block (setBit newSize 0) })
            else
              -- exact fit: `new_size += next_phys_block_size_and_flags & LAST`
              let newSize2 := newSize + (if bit npSF 1 then 2 else 0)
              let s2 :=
                match nnp with
                | some x => { s1 with mem := setPrevPhysOf s1.mem x (some block) }
                | none => s1
              (some ptr,
               { s2 with mem := setSizeWordOf s2.mem block (setBit newSize2 0) })
    else if newSize < oldSize then
      -- shrink, creating a new free block at the end
      let shrinkBy := wrappingSub W newSize oldSize
      let newFreeBlock := block + newSize
      let nfbSF0 := (shrinkBy +
        (if bit ((getRec s.mem block).sizeWord) 1 then 2 else 0)) % wordMod p
      let merged :=
        match next_phys_block p block ((getRec s.mem block).sizeWord) with
        | some np =>
          let npSF := (getRec s.mem np).sizeWord
          let npSize := alignDown npSF (GRANULARITY p)
          if bit npSF 0 then
            (nfbSF0, { s with mem := setPrevPhysOf s.mem np (some newFreeBlock) })
          else
            let s1 := unlink_free_block p s np npSize
            let s2 :=
              match next_phys_block p np npSF with
              | some nnp =>
                { s1 with mem := setPrevPhysOf s1.mem nnp (some newFreeBlock) }
              | none => s1
            ((nfbSF0 + npSize) % wordMod p, s2)
        | none => (nfbSF0, s)
      let nfbSF := merged.1
      let s2 := merged.2
      let s3 :=
        { s2 with mem := setCommonOf s2.mem newFreeBlock nfbSF (some block) }
      let s4 := link_free_block p s3 newFreeBlock
        (alignDown nfbSF (GRANULARITY p))
      (some ptr, { s4 with mem := setSizeWordOf s4.mem block (setBit newSize 0) })
    else (some ptr, s)

/-- `Tlsf::reallocate` (src/src/tlsf.rs:761): round the new size up, try the
in-place path, otherwise deallocate the old block first and then allocate a
whole new one (the relocation copies payload bytes, which have no effect on
the modelled state). -/
def reallocate (p : Params) (s : TlsfState) (ptr size align : Nat) :
    Option Nat × TlsfState :=
  match used_block_hdr_for_allocation p s ptr align with
  | none => (none, s)
  | some block =>
    match checkedAdd (usizeBits p) size (GRANULARITY p - 1) with
    | none => (none, s)
    | some t =>
      let rsize := alignDown t (GRANULARITY p)
      match reallocate_without_moving p s ptr block rsize with
      | (some x, s2) => (some x, s2)
      | (none, _) =>
        let s1 := deallocate p s ptr align
        allocate p s1 rsize align

/-! Concrete instantiations used for witnesses and failing inputs: a 64-bit
platform (`g = 5`), with `FLLEN = 12, SLLEN = 16` (the configuration of the
crate-level doc example) and `FLLEN = 8, SLLEN = 8` (the configuration of
the minitlsf doc examples). -/

def demoParams : Params := ⟨5, 4, 12⟩

def smallParams : Params := ⟨5, 3, 8⟩

/-- The state after registering a 320-byte pool at address 1024. -/
def pool320 : TlsfState := insert_free_block_ptr demoParams INIT 1024 320

/-- The state after registering a 1024-byte pool at address 1024. -/
def pool1024 : TlsfState := insert_free_block_ptr demoParams INIT 1024 1024

/-- The state after allocating `(size, align) = (32, 1)` from `pool320`. -/
def afterAlloc32 : TlsfState := (allocate demoParams pool320 32 1).2

/-- The hypothesis of C7 (one half of spec invariant 4, the direction the
search relies on): whenever a second-level bitmap bit is set, the
corresponding free-list head is non-null. -/
def BitmapHeadsAgree (p : Params) (s : TlsfState) : Prop :=
  ∀ fl < p.fllen, ∀ sl < sllen p,
    bit (s.slBitmap fl) sl → s.firstFree fl sl ≠ none

instance (p : Params) (s : TlsfState) : Decidable (BitmapHeadsAgree p s) := by
  unfold BitmapHeadsAgree
  infer_instance

/-- The precondition of C9 in decidable form: every free-list head in a
searchable list is granularity-aligned and at least `GRANULARITY` below the
top of the address space (true of every block the allocator creates, since
pool starts are rounded up to `GRANULARITY` and block sizes are multiples of
it). -/
def HeadsAligned (p : Params) (s : TlsfState) : Prop :=
  ∀ fl < p.fllen, ∀ sl < sllen p,
    ((s.firstFree fl sl).all fun b =>
      decide (GRANULARITY p ∣ b ∧ b + GRANULARITY p ≤ wordMod p)) = true

instance (p : Params) (s : TlsfState) : Decidable (HeadsAligned p s) := by
  unfold HeadsAligned
  infer_instance

/-! ### Arithmetic facts -/

theorem alignDown_eq_mul_div (x a : Nat) : alignDown x a = a * (x / a) := by
  have := Nat.div_add_mod x a
  unfold alignDown
  omega

theorem alignDown_dvd (x a : Nat) : a ∣ alignDown x a :=
  ⟨x / a, alignDown_eq_mul_div x a⟩

theorem alignDown_of_dvd (x a : Nat) (h : a ∣ x) : alignDown x a = x := by
  unfold alignDown
  rw [Nat.mod_eq_zero_of_dvd h]
  omega

theorem add_pred_div (x d : Nat) (hd : 0 < d) :
    (x + (d - 1)) / d = x / d + (if d ∣ x then 0 else 1) := by
  by_cases hdvd : d ∣ x
  · obtain ⟨q, rfl⟩ := hdvd
    rw [if_pos (Dvd.intro q rfl), Nat.mul_add_div hd,
      Nat.div_eq_of_lt (Nat.sub_lt hd Nat.one_pos),
      Nat.mul_div_cancel_left q hd]
  · have hr : 1 ≤ x % d := by
      rcases Nat.eq_zero_or_pos (x % d) with h | h
      · exact absurd (Nat.dvd_iff_mod_eq_zero.mpr h) hdvd
      · exact h
    have hrd : x % d < d := Nat.mod_lt x hd
    have hx : x + (d - 1) = d * (x / d + 1) + (x % d - 1) := by
      have hdm := Nat.div_add_mod x d
      have hmul : d * (x / d + 1) = d * (x / d) + d := by ring
      omega
    rw [if_neg hdvd, hx, Nat.mul_add_div hd,
      Nat.div_eq_of_lt (show x % d - 1 < d by omega)]

theorem log2Fueled_eq (fuel n : Nat) (h : n ≤ fuel) :
    log2Fueled fuel n = Nat.log2 n := by
  induction fuel generalizing n with
  | zero =>
    have hn : n = 0 := by omega
    subst hn
    rw [log2Fueled, Nat.log2]
    norm_num
  | succ fuel ih =>
    rw [log2Fueled, Nat.log2]
    by_cases h2 : 2 ≤ n
    · rw [if_pos h2, if_pos h2, ih (n / 2) (by omega)]
    · rw [if_neg h2, if_neg h2]

theorem ilog2_eq_log2 (n : Nat) : ilog2 n = Nat.log2 n :=
  log2Fueled_eq n n le_rfl

theorem log2_spec_le (x : Nat) (hx : x ≠ 0) : 2 ^ Nat.log2 x ≤ x :=
  (Nat.le_log2 hx).mp le_rfl

theorem log2_spec_lt (x : Nat) : x < 2 ^ (Nat.log2 x + 1) := by
  rcases eq_or_ne x 0 with rfl | hx
  · simp [Nat.log2]
  · exact (Nat.log2_lt hx).mp (Nat.lt_succ_self _)

theorem log2_eq_of (k x : Nat) (h1 : 2 ^ k ≤ x) (h2 : x < 2 ^ (k + 1)) :
    Nat.log2 x = k := by
  have hx : x ≠ 0 := by
    have : (1 : Nat) ≤ 2 ^ k := Nat.one_le_two_pow
    omega
  have ha := (Nat.le_log2 hx).mpr h1
  have hb := (Nat.log2_lt hx).mpr h2
  omega

theorem log2_le_of_le (x w : Nat) (hx : x ≠ 0) (h : x < 2 ^ w) :
    Nat.log2 x < w := by
  by_contra hc
  have : 2 ^ w ≤ 2 ^ Nat.log2 x := Nat.pow_le_pow_right (by norm_num) (by omega)
  have := log2_spec_le x hx
  omega

theorem two_pow_pred_div (w k : Nat) (hk : k ≤ w) :
    (2 ^ w - 1) / 2 ^ k = 2 ^ (w - k) - 1 := by
  have hk0 : 0 < 2 ^ k := Nat.pos_pow_of_pos _ (by norm_num)
  have he : 2 ^ k * (2 ^ (w - k) - 1) = 2 ^ w - 2 ^ k := by
    rw [Nat.mul_sub, Nat.mul_one, ← pow_add]
    congr 2
    omega
  have h2 : 2 ^ k ≤ 2 ^ w := Nat.pow_le_pow_right (by norm_num) hk
  have h1 : 2 ^ w - 1 = 2 ^ k * (2 ^ (w - k) - 1) + (2 ^ k - 1) := by
    rw [he]; omega
  rw [h1, Nat.mul_add_div hk0, Nat.div_eq_of_lt (by omega)]
  omega

theorem ceil_round_eq (x d w : Nat) (hd : 0 < d) (hx : x < 2 ^ w) :
    x / d + (if x / d * d % 2 ^ w ≠ x then 1 else 0) = (x + (d - 1)) / d := by
  have hle : x / d * d ≤ x := Nat.div_mul_le_self x d
  have hmod : x / d * d % 2 ^ w = x / d * d := Nat.mod_eq_of_lt (by omega)
  rw [hmod, add_pred_div x d hd]
  by_cases hdvd : d ∣ x
  · rw [if_pos hdvd, if_neg (by simp [Nat.div_mul_cancel hdvd])]
  · rw [if_neg hdvd, if_pos (by
      intro hc
      exact hdvd (Dvd.intro_left (x / d) hc))]

theorem ceilDiv_of_dvd (x d : Nat) (hd : 0 < d) (hdvd : d ∣ x) :
    (x + (d - 1)) / d = x / d := by
  rw [add_pred_div x d hd, if_pos hdvd, Nat.add_zero]

/-! ### Normal forms of the size-class mapper -/

theorem map_branch_iff (p : Params) (size : Nat) (hg : 2 ^ p.g ≤ size) :
    (p.g < p.sli ∧ Nat.log2 size - p.g < p.sli - p.g) ↔
      Nat.log2 size < p.sli := by
  have hx : size ≠ 0 := by
    have : (1 : Nat) ≤ 2 ^ p.g := Nat.one_le_two_pow
    omega
  have hgl : p.g ≤ Nat.log2 size := (Nat.le_log2 hx).mpr hg
  omega

theorem map_floor_eq_ceil_small (p : Params) (size : Nat)
    (hg : 2 ^ p.g ≤ size) (hL : Nat.log2 size < p.sli) :
    map_floor p size = map_ceil p size := by
  have hcond := (map_branch_iff p size hg).mpr hL
  simp only [map_floor, map_ceil, ilog2_eq_log2, if_pos hcond]

theorem map_floor_else (p : Params) (size : Nat) (hg : 2 ^ p.g ≤ size)
    (hL : p.sli ≤ Nat.log2 size) :
    map_floor p size =
      if p.fllen ≤ Nat.log2 size - p.g then none
      else some (Nat.log2 size - p.g,
        size / 2 ^ (Nat.log2 size - p.sli) % 2 ^ p.sli) := by
  have hx : size ≠ 0 := by
    have : (1 : Nat) ≤ 2 ^ p.g := Nat.one_le_two_pow
    omega
  have hgl : p.g ≤ Nat.log2 size := (Nat.le_log2 hx).mpr hg
  have hcond : ¬(p.g < p.sli ∧ Nat.log2 size - p.g < p.sli - p.g) := by
    rw [map_branch_iff p size hg]; omega
  have hshift : Nat.log2 size - p.g + p.g - p.sli = Nat.log2 size - p.sli := by
    omega
  simp only [map_floor, ilog2_eq_log2, if_neg hcond]
  rw [hshift]
  rfl

theorem map_ceil_else (p : Params) (size : Nat) (hg : 2 ^ p.g ≤ size)
    (hL : p.sli ≤ Nat.log2 size) (hw : size < 2 ^ usizeBits p) :
    map_ceil p size =
      if p.fllen ≤ Nat.log2 size - p.g +
          (size + (2 ^ (Nat.log2 size - p.sli) - 1)) /
            2 ^ (Nat.log2 size - p.sli) / 2 ^ (p.sli + 1) then none
      else some
        (Nat.log2 size - p.g +
          (size + (2 ^ (Nat.log2 size - p.sli) - 1)) /
            2 ^ (Nat.log2 size - p.sli) / 2 ^ (p.sli + 1),
         (size + (2 ^ (Nat.log2 size - p.sli) - 1)) /
            2 ^ (Nat.log2 size - p.sli) % 2 ^ p.sli) := by
  have hx : size ≠ 0 := by
    have : (1 : Nat) ≤ 2 ^ p.g := Nat.one_le_two_pow
    omega
  have hgl : p.g ≤ Nat.log2 size := (Nat.le_log2 hx).mpr hg
  have hcond : ¬(p.g < p.sli ∧ Nat.log2 size - p.g < p.sli - p.g) := by
    rw [map_branch_iff p size hg]; omega
  have hshift : Nat.log2 size - p.g + p.g - p.sli = Nat.log2 size - p.sli := by
    omega
  have hd : 0 < 2 ^ (Nat.log2 size - p.sli) := Nat.pos_pow_of_pos _ (by norm_num)
  have hc := ceil_round_eq size (2 ^ (Nat.log2 size - p.sli)) (usizeBits p) hd hw
  simp only [map_ceil, ilog2_eq_log2, if_neg hcond, wordMod]
  rw [hshift, hc]
  rfl

theorem ceil_c_bounds (p : Params) (size : Nat) (hg : 2 ^ p.g ≤ size)
    (hL : p.sli ≤ Nat.log2 size) :
    2 ^ p.sli ≤ (size + (2 ^ (Nat.log2 size - p.sli) - 1)) /
        2 ^ (Nat.log2 size - p.sli) ∧
      (size + (2 ^ (Nat.log2 size - p.sli) - 1)) /
        2 ^ (Nat.log2 size - p.sli) ≤ 2 ^ (p.sli + 1) ∧
      2 ^ p.sli ≤ size / 2 ^ (Nat.log2 size - p.sli) ∧
      size / 2 ^ (Nat.log2 size - p.sli) < 2 ^ (p.sli + 1) := by
  have hx : size ≠ 0 := by
    have : (1 : Nat) ≤ 2 ^ p.g := Nat.one_le_two_pow
    omega
  have hd : 0 < 2 ^ (Nat.log2 size - p.sli) := Nat.pos_pow_of_pos _ (by norm_num)
  have hsplit : 2 ^ (Nat.log2 size - p.sli) * 2 ^ p.sli = 2 ^ Nat.log2 size := by
    rw [← pow_add]; congr 1; omega
  have hsplit2 : 2 ^ (p.sli + 1) * 2 ^ (Nat.log2 size - p.sli) =
      2 ^ (Nat.log2 size + 1) := by
    rw [← pow_add]; congr 1; omega
  have hlo : 2 ^ p.sli ≤ size / 2 ^ (Nat.log2 size - p.sli) := by
    have h1 : 2 ^ Nat.log2 size ≤ size := log2_spec_le size hx
    have h2 := Nat.div_le_div_right (c := 2 ^ (Nat.log2 size - p.sli))
      (le_trans hsplit.le h1)
    rwa [Nat.mul_div_cancel_left _ hd] at h2
  have hhi : size / 2 ^ (Nat.log2 size - p.sli) < 2 ^ (p.sli + 1) := by
    rw [Nat.div_lt_iff_lt_mul hd]
    calc size < 2 ^ (Nat.log2 size + 1) := log2_spec_lt size
    _ = 2 ^ (p.sli + 1) * 2 ^ (Nat.log2 size - p.sli) := hsplit2.symm
  have hceil := add_pred_div size (2 ^ (Nat.log2 size - p.sli)) hd
  refine ⟨?_, ?_, hlo, hhi⟩
  · rw [hceil]; omega
  · rw [hceil]
    by_cases hdvd : 2 ^ (Nat.log2 size - p.sli) ∣ size <;> simp [hdvd] <;> omega

/-- The value of `max1` in `map_ceil_and_unmap`: `!(usize::MAX >> (sli+1))`
equals `2^W - 2^(W-sli-1)`. -/
theorem mcau_max1_eq (p : Params) (hv : p.Valid) :
    (wordMod p - 1) - (wordMod p - 1) / 2 ^ (p.sli + 1) =
      2 ^ usizeBits p - 2 ^ (usizeBits p - (p.sli + 1)) := by
  have hsw := hv.2.2
  have h1 : (wordMod p - 1) / 2 ^ (p.sli + 1) =
      2 ^ (usizeBits p - (p.sli + 1)) - 1 := by
    rw [wordMod, two_pow_pred_div _ _ (by omega)]
  have h2 : 2 ^ (usizeBits p - (p.sli + 1)) ≤ 2 ^ usizeBits p :=
    Nat.pow_le_pow_right (by norm_num) (by omega)
  have h3 : (1 : Nat) ≤ 2 ^ (usizeBits p - (p.sli + 1)) := Nat.one_le_two_pow
  rw [h1, wordMod]
  omega

theorem mcauBound_le_max1 (p : Params) :
    mcauBound p ≤ (wordMod p - 1) - (wordMod p - 1) / 2 ^ (p.sli + 1) := by
  simp only [mcauBound]
  split
  · exact Nat.div_le_self _ _
  · exact le_rfl

theorem mcau_else (p : Params) (size : Nat) (hg : 2 ^ p.g ≤ size)
    (hL : p.sli ≤ Nat.log2 size) :
    map_ceil_and_unmap p size =
      if mcauBound p < size then none
      else some (2 ^ (Nat.log2 size - p.sli) *
        ((size + (2 ^ (Nat.log2 size - p.sli) - 1)) /
          2 ^ (Nat.log2 size - p.sli))) := by
  have hx : size ≠ 0 := by
    have : (1 : Nat) ≤ 2 ^ p.g := Nat.one_le_two_pow
    omega
  have hgl : p.g ≤ Nat.log2 size := (Nat.le_log2 hx).mpr hg
  have hcond : ¬(p.g < p.sli ∧ Nat.log2 size - p.g < p.sli - p.g) := by
    rw [map_branch_iff p size hg]; omega
  have hshift : Nat.log2 size - p.g + p.g - p.sli = Nat.log2 size - p.sli := by
    omega
  by_cases hb : mcauBound p < size
  · simp only [map_ceil_and_unmap, if_pos hb]
  · simp only [map_ceil_and_unmap, ilog2_eq_log2, if_neg hb, if_neg hcond]
    rw [hshift, alignDown_eq_mul_div]

theorem mcau_small (p : Params) (size : Nat) (hg : 2 ^ p.g ≤ size)
    (hL : Nat.log2 size < p.sli) :
    map_ceil_and_unmap p size =
      if mcauBound p < size then none else some size := by
  have hcond := (map_branch_iff p size hg).mpr hL
  by_cases hb : mcauBound p < size
  · simp only [map_ceil_and_unmap, if_pos hb]
  · simp only [map_ceil_and_unmap, ilog2_eq_log2, if_neg hb, if_pos hcond]

/-- **C5**: for every `size` that is a multiple of `GRANULARITY`, at least
`GRANULARITY`, and for which `map_ceil_and_unmap size` is defined and equals
`m`, the round trip holds: `map_floor m = map_ceil m = map_ceil size`. -/
theorem map_round_trip (p : Params) (size m : Nat) (hv : p.Valid)
    (hG : 2 ^ p.g ≤ size) (hdvd : 2 ^ p.g ∣ size)
    (hw : size < 2 ^ usizeBits p)
    (hm : map_ceil_and_unmap p size = some m) :
    map_floor p m = map_ceil p m ∧ map_ceil p m = map_ceil p size := by
  have hx : size ≠ 0 := by
    have := Nat.one_le_two_pow (n := p.g); omega
  have hgl : p.g ≤ Nat.log2 size := (Nat.le_log2 hx).mpr hG
  have hLW : Nat.log2 size < usizeBits p := log2_le_of_le size _ hx hw
  rcases Nat.lt_or_ge (Nat.log2 size) p.sli with hL | hL
  · -- small branch: `map_ceil_and_unmap` returns `size` itself
    rw [mcau_small p size hG hL] at hm
    rcases Nat.lt_or_ge (mcauBound p) size with hb | hb
    · rw [if_pos hb] at hm; cases hm
    · rw [if_neg (by omega)] at hm
      have hm' := Option.some.inj hm
      subst hm'
      exact ⟨map_floor_eq_ceil_small p size hG hL, rfl⟩
  · -- main branch: `m = d * c` with `d = 2^(log2 size - sli)`, `c = ⌈size/d⌉`
    rw [mcau_else p size hG hL] at hm
    rcases Nat.lt_or_ge (mcauBound p) size with hb | hb
    · rw [if_pos hb] at hm; cases hm
    · rw [if_neg (by omega)] at hm
      have hm' := Option.some.inj hm
      subst hm'
      obtain ⟨hc1, hc2, hq1, hq2⟩ := ceil_c_bounds p size hG hL
      have hd0 : 0 < 2 ^ (Nat.log2 size - p.sli) :=
        Nat.pos_pow_of_pos _ (by norm_num)
      have hsplit : 2 ^ (Nat.log2 size - p.sli) * 2 ^ p.sli =
          2 ^ Nat.log2 size := by
        rw [← pow_add]; congr 1; omega
      have hsplitB : 2 ^ (Nat.log2 size - p.sli) * 2 ^ (p.sli + 1) =
          2 ^ (Nat.log2 size + 1) := by
        rw [← pow_add]; congr 1; omega
      have hdvdm : 2 ^ (Nat.log2 size - p.sli) ∣
          2 ^ (Nat.log2 size - p.sli) *
            ((size + (2 ^ (Nat.log2 size - p.sli) - 1)) /
              2 ^ (Nat.log2 size - p.sli)) := ⟨_, rfl⟩
      have hmdiv : 2 ^ (Nat.log2 size - p.sli) *
          ((size + (2 ^ (Nat.log2 size - p.sli) - 1)) /
            2 ^ (Nat.log2 size - p.sli)) / 2 ^ (Nat.log2 size - p.sli) =
          (size + (2 ^ (Nat.log2 size - p.sli) - 1)) /
            2 ^ (Nat.log2 size - p.sli) :=
        Nat.mul_div_cancel_left _ hd0
      rcases Nat.lt_or_ge ((size + (2 ^ (Nat.log2 size - p.sli) - 1)) /
          2 ^ (Nat.log2 size - p.sli)) (2 ^ (p.sli + 1)) with hcB | hcB
      · -- no carry into the next first-level class
        have hm1 : 2 ^ Nat.log2 size ≤ 2 ^ (Nat.log2 size - p.sli) *
            ((size + (2 ^ (Nat.log2 size - p.sli) - 1)) /
              2 ^ (Nat.log2 size - p.sli)) := by
          calc 2 ^ Nat.log2 size
              = 2 ^ (Nat.log2 size - p.sli) * 2 ^ p.sli := hsplit.symm
            _ ≤ _ := Nat.mul_le_mul_left _ hc1
        have hm2 : 2 ^ (Nat.log2 size - p.sli) *
            ((size + (2 ^ (Nat.log2 size - p.sli) - 1)) /
              2 ^ (Nat.log2 size - p.sli)) < 2 ^ (Nat.log2 size + 1) := by
          calc 2 ^ (Nat.log2 size - p.sli) *
              ((size + (2 ^ (Nat.log2 size - p.sli) - 1)) /
                2 ^ (Nat.log2 size - p.sli))
              < 2 ^ (Nat.log2 size - p.sli) * 2 ^ (p.sli + 1) :=
                (mul_lt_mul_left hd0).mpr hcB
            _ = 2 ^ (Nat.log2 size + 1) := hsplitB
        have hlogm := log2_eq_of (Nat.log2 size) _ hm1 hm2
        have hgm : 2 ^ p.g ≤ 2 ^ (Nat.log2 size - p.sli) *
            ((size + (2 ^ (Nat.log2 size - p.sli) - 1)) /
              2 ^ (Nat.log2 size - p.sli)) :=
          le_trans (Nat.pow_le_pow_right (by norm_num) hgl) hm1
        have hLm : p.sli ≤ Nat.log2 (2 ^ (Nat.log2 size - p.sli) *
            ((size + (2 ^ (Nat.log2 size - p.sli) - 1)) /
              2 ^ (Nat.log2 size - p.sli))) := by rw [hlogm]; exact hL
        have hwm : 2 ^ (Nat.log2 size - p.sli) *
            ((size + (2 ^ (Nat.log2 size - p.sli) - 1)) /
              2 ^ (Nat.log2 size - p.sli)) < 2 ^ usizeBits p :=
          lt_of_lt_of_le hm2 (Nat.pow_le_pow_right (by norm_num) (by omega))
        have hfl := map_floor_else p _ hgm hLm
        have hcl := map_ceil_else p _ hgm hLm hwm
        have hcs := map_ceil_else p size hG hL hw
        rw [hlogm] at hfl hcl
        rw [hmdiv] at hfl
        have hcm : (2 ^ (Nat.log2 size - p.sli) *
            ((size + (2 ^ (Nat.log2 size - p.sli) - 1)) /
              2 ^ (Nat.log2 size - p.sli)) +
              (2 ^ (Nat.log2 size - p.sli) - 1)) /
            2 ^ (Nat.log2 size - p.sli) =
            (size + (2 ^ (Nat.log2 size - p.sli) - 1)) /
              2 ^ (Nat.log2 size - p.sli) := by
          rw [ceilDiv_of_dvd _ _ hd0 hdvdm, hmdiv]
        rw [hcm] at hcl
        have hcarry : (size + (2 ^ (Nat.log2 size - p.sli) - 1)) /
            2 ^ (Nat.log2 size - p.sli) / 2 ^ (p.sli + 1) = 0 :=
          Nat.div_eq_of_lt hcB
        rw [hcarry] at hcl hcs
        simp only [Nat.add_zero] at hcl hcs
        exact ⟨by rw [hfl, hcl], by rw [hcl, hcs]⟩
      · -- the rounded value carries into the next first-level class
        have hceq : (size + (2 ^ (Nat.log2 size - p.sli) - 1)) /
            2 ^ (Nat.log2 size - p.sli) = 2 ^ (p.sli + 1) := by omega
        have hsw := hv.2.2
        have hWL : Nat.log2 size + 1 < usizeBits p := by
          by_contra hc'
          have hbd : size ≤ 2 ^ usizeBits p -
              2 ^ (usizeBits p - (p.sli + 1)) := by
            have := mcauBound_le_max1 p
            have := mcau_max1_eq p hv
            omega
          have hdexp : Nat.log2 size - p.sli = usizeBits p - (p.sli + 1) := by
            omega
          have h3 : (1 : Nat) ≤ 2 ^ (Nat.log2 size - p.sli) :=
            Nat.one_le_two_pow
          have hstep : size + (2 ^ (Nat.log2 size - p.sli) - 1) ≤
              2 ^ usizeBits p - 1 := by
            rw [hdexp] at *
            omega
          have hcle := Nat.div_le_div_right
            (c := 2 ^ (Nat.log2 size - p.sli)) hstep
          rw [hdexp, two_pow_pred_div _ _ (by omega)] at hcle
          have hexp2 : usizeBits p - (usizeBits p - (p.sli + 1)) =
              p.sli + 1 := by omega
          rw [hexp2] at hcle
          rw [hdexp] at hceq
          have h4 : (1 : Nat) ≤ 2 ^ (p.sli + 1) := Nat.one_le_two_pow
          omega
        have hmeq : 2 ^ (Nat.log2 size - p.sli) *
            ((size + (2 ^ (Nat.log2 size - p.sli) - 1)) /
              2 ^ (Nat.log2 size - p.sli)) = 2 ^ (Nat.log2 size + 1) := by
          rw [hceq, hsplitB]
        rw [hmeq]
        have hlogm : Nat.log2 (2 ^ (Nat.log2 size + 1)) =
            Nat.log2 size + 1 :=
          log2_eq_of _ _ le_rfl (Nat.pow_lt_pow_right (by norm_num)
            (Nat.lt_succ_self _))
        have hgm : 2 ^ p.g ≤ 2 ^ (Nat.log2 size + 1) :=
          Nat.pow_le_pow_right (by norm_num) (by omega)
        have hLm : p.sli ≤ Nat.log2 (2 ^ (Nat.log2 size + 1)) := by
          rw [hlogm]; omega
        have hwm : 2 ^ (Nat.log2 size + 1) < 2 ^ usizeBits p :=
          Nat.pow_lt_pow_right (by norm_num) hWL
        have hfl := map_floor_else p _ hgm hLm
        have hcl := map_ceil_else p _ hgm hLm hwm
        have hcs := map_ceil_else p size hG hL hw
        rw [hlogm] at hfl hcl
        have hdm : (2 : Nat) ^ (Nat.log2 size + 1 - p.sli) ∣
            2 ^ (Nat.log2 size + 1) := pow_dvd_pow 2 (by omega)
        have hd0' : 0 < 2 ^ (Nat.log2 size + 1 - p.sli) :=
          Nat.pos_pow_of_pos _ (by norm_num)
        have hmdiv2 : (2 : Nat) ^ (Nat.log2 size + 1) /
            2 ^ (Nat.log2 size + 1 - p.sli) = 2 ^ p.sli := by
          rw [Nat.pow_div (by omega) (by norm_num)]
          congr 1; omega
        have hcm2 : ((2 : Nat) ^ (Nat.log2 size + 1) +
            (2 ^ (Nat.log2 size + 1 - p.sli) - 1)) /
            2 ^ (Nat.log2 size + 1 - p.sli) = 2 ^ p.sli := by
          rw [ceilDiv_of_dvd _ _ hd0' hdm, hmdiv2]
        rw [hmdiv2] at hfl
        rw [hcm2] at hcl
        have hcarrym : (2 : Nat) ^ p.sli / 2 ^ (p.sli + 1) = 0 :=
          Nat.div_eq_of_lt (Nat.pow_lt_pow_right (by norm_num)
            (Nat.lt_succ_self _))
        rw [hcarrym] at hcl
        have hmodm : (2 : Nat) ^ p.sli % 2 ^ p.sli = 0 := Nat.mod_self _
        rw [hmodm] at hfl hcl
        rw [hceq] at hcs
        have hcarrys : (2 : Nat) ^ (p.sli + 1) / 2 ^ (p.sli + 1) = 1 :=
          Nat.div_self (Nat.pos_pow_of_pos _ (by norm_num))
        have hmods : (2 : Nat) ^ (p.sli + 1) % 2 ^ p.sli = 0 := by
          rw [pow_succ]; exact Nat.mul_mod_right _ _
        rw [hcarrys, hmods] at hcs
        have hidx : Nat.log2 size + 1 - p.g = Nat.log2 size - p.g + 1 := by
          omega
        rw [hidx] at hfl hcl
        simp only [Nat.add_zero] at hfl hcl
        exact ⟨by rw [hfl, hcl], by rw [hcl, hcs]⟩

/-- **C5** (witness): the round trip evaluated at `size = 2016` with the
`FLLEN = 12, SLLEN = 16` configuration on a 64-bit platform, where
`map_ceil_and_unmap 2016 = 2048`. -/
theorem map_round_trip_witness :
    demoParams.Valid ∧ 2 ^ demoParams.g ≤ 2016 ∧ 2 ^ demoParams.g ∣ 2016 ∧
      2016 < 2 ^ usizeBits demoParams ∧
      map_ceil_and_unmap demoParams 2016 = some 2048 ∧
      (map_floor demoParams 2048 = map_ceil demoParams 2048 ∧
        map_ceil demoParams 2048 = map_ceil demoParams 2016) :=
  ⟨by decide, by decide, by decide, by decide, by decide,
    map_round_trip demoParams 2016 2048 (by decide) (by decide) (by decide)
      (by decide) (by decide)⟩

/-- **C6** (counterexample): at `size = 2016` (a multiple of `GRANULARITY`)
with `FLLEN = 12`, `SLLEN = 16` on a 64-bit platform, `map_floor` gives
`(5, 15)` while `map_ceil` carries into the next first level and gives
`(6, 0)`, so the `sl` components are *not* ordered: `¬(15 ≤ 0)`. -/
theorem map_floor_le_map_ceil_counterexample :
    2 ^ demoParams.g ≤ 2016 ∧ 2 ^ demoParams.g ∣ 2016 ∧
      map_floor demoParams 2016 = some (5, 15) ∧
      map_ceil demoParams 2016 = some (6, 0) ∧ ¬(15 ≤ 0) := by
  decide

/-- **C6** (amended): for every in-range size with both results defined, the
`fl` component of `map_floor` is `≤` the `fl` component of `map_ceil`, and
*whenever the two `fl` components are equal*, the `sl` component of
`map_floor` is `≤` the `sl` component of `map_ceil` (the unrestricted `sl`
comparison fails when `map_ceil` carries into the next first level). -/
theorem map_floor_le_map_ceil_amended (p : Params) (size : Nat)
    (a b : Nat × Nat) (hG : 2 ^ p.g ≤ size) (hdvd : 2 ^ p.g ∣ size)
    (hw : size < 2 ^ usizeBits p)
    (hf : map_floor p size = some a) (hc : map_ceil p size = some b) :
    a.1 ≤ b.1 ∧ (a.1 = b.1 → a.2 ≤ b.2) := by
  have hx : size ≠ 0 := by
    have := Nat.one_le_two_pow (n := p.g); omega
  have hgl : p.g ≤ Nat.log2 size := (Nat.le_log2 hx).mpr hG
  rcases Nat.lt_or_ge (Nat.log2 size) p.sli with hL | hL
  · rw [map_floor_eq_ceil_small p size hG hL] at hf
    have hab : a = b := Option.some.inj (hf.symm.trans hc)
    subst hab
    exact ⟨le_rfl, fun _ => le_rfl⟩
  · rw [map_floor_else p size hG hL] at hf
    rw [map_ceil_else p size hG hL hw] at hc
    obtain ⟨hc1, hc2, hq1, hq2⟩ := ceil_c_bounds p size hG hL
    have hd0 : 0 < 2 ^ (Nat.log2 size - p.sli) :=
      Nat.pos_pow_of_pos _ (by norm_num)
    have hqc : size / 2 ^ (Nat.log2 size - p.sli) ≤
        (size + (2 ^ (Nat.log2 size - p.sli) - 1)) /
          2 ^ (Nat.log2 size - p.sli) := by
      rw [add_pred_div _ _ hd0]
      omega
    by_cases hcond1 : p.fllen ≤ Nat.log2 size - p.g
    · rw [if_pos hcond1] at hf; cases hf
    · rw [if_neg hcond1] at hf
      have hfa := Option.some.inj hf
      subst hfa
      by_cases hcond2 : p.fllen ≤ Nat.log2 size - p.g +
          (size + (2 ^ (Nat.log2 size - p.sli) - 1)) /
            2 ^ (Nat.log2 size - p.sli) / 2 ^ (p.sli + 1)
      · rw [if_pos hcond2] at hc; cases hc
      · rw [if_neg hcond2] at hc
        have hcb := Option.some.inj hc
        subst hcb
        refine ⟨by simp, fun heq => ?_⟩
        simp only at heq ⊢
        rcases Nat.lt_or_ge ((size + (2 ^ (Nat.log2 size - p.sli) - 1)) /
            2 ^ (Nat.log2 size - p.sli)) (2 ^ (p.sli + 1)) with hcB | hcB
        · have hmodq : size / 2 ^ (Nat.log2 size - p.sli) % 2 ^ p.sli =
              size / 2 ^ (Nat.log2 size - p.sli) - 2 ^ p.sli := by
            rw [Nat.mod_eq_sub_mod hq1, Nat.mod_eq_of_lt (by
              have := Nat.one_le_two_pow (n := p.sli)
              have h2 : (2 : Nat) ^ (p.sli + 1) = 2 ^ p.sli * 2 :=
                pow_succ 2 p.sli
              omega)]
          have hmodc : (size + (2 ^ (Nat.log2 size - p.sli) - 1)) /
              2 ^ (Nat.log2 size - p.sli) % 2 ^ p.sli =
              (size + (2 ^ (Nat.log2 size - p.sli) - 1)) /
                2 ^ (Nat.log2 size - p.sli) - 2 ^ p.sli := by
            rw [Nat.mod_eq_sub_mod hc1, Nat.mod_eq_of_lt (by
              have := Nat.one_le_two_pow (n := p.sli)
              have h2 : (2 : Nat) ^ (p.sli + 1) = 2 ^ p.sli * 2 :=
                pow_succ 2 p.sli
              omega)]
          rw [hmodq, hmodc]
          omega
        · -- carry case: the fl components cannot be equal
          have hceq : (size + (2 ^ (Nat.log2 size - p.sli) - 1)) /
              2 ^ (Nat.log2 size - p.sli) = 2 ^ (p.sli + 1) := by omega
          rw [hceq, Nat.div_self (Nat.pos_pow_of_pos _ (by norm_num))] at heq
          omega

/-! ### Structural facts about the allocator operations -/

theorem alignDown_mod (x a : Nat) : alignDown x a % a = 0 := by
  rw [alignDown_eq_mul_div]
  exact Nat.mul_mod_right a _

@[simp]
theorem crumbs_link_free_block (p : Params) (s : TlsfState) (b sz : Nat) :
    (link_free_block p s b sz).crumbs = s.crumbs := by
  unfold link_free_block
  split
  · rfl
  · rfl

@[simp]
theorem updCrumb_same (c : Nat → Option Nat) (a v : Nat) :
    updCrumb c a v a = some v := by
  unfold updCrumb
  simp

@[simp]
theorem crumbs_popHead (p : Params) (s : TlsfState) (fl sl block : Nat) :
    (popHead p s fl sl block).crumbs = s.crumbs := by
  unfold popHead
  split
  · rfl
  · split <;> rfl

/-- Inversion of a successful `allocate` call: the search succeeded, the
returned pointer is the head block's address plus the used-header size,
rounded up to the requested alignment, and (for an over-aligned request)
the final state's breadcrumb word just below the payload holds the chosen
block's address. -/
theorem allocate_inv (p : Params) (s : TlsfState) (size align ptr : Nat)
    (s' : TlsfState) (h : allocate p s size align = (some ptr, s')) :
    ∃ ss fl sl block,
      searchSizeOf p size align = some ss ∧
      searchSuitable p s ss = some (fl, sl) ∧
      s.firstFree fl sl = some block ∧
      ptr = alignDown ((block + GRANULARITY p / 2 + (align - 1)) % wordMod p)
        align ∧
      s'.crumbs = (if GRANULARITY p ≤ align then
        updCrumb s.crumbs (ptr - GRANULARITY p / 4) block else s.crumbs) := by
  unfold allocate at h
  cases hss : searchSizeOf p size align with
  | none => rw [hss] at h; simp at h
  | some ss =>
  rw [hss] at h
  simp only [] at h
  cases hfs : searchSuitable p s ss with
  | none => rw [hfs] at h; simp at h
  | some flsl =>
  obtain ⟨fl, sl⟩ := flsl
  rw [hfs] at h
  simp only [] at h
  cases hhd : s.firstFree fl sl with
  | none => rw [hhd] at h; simp at h
  | some block =>
  rw [hhd] at h
  simp only [] at h
  have h1 := congrArg Prod.fst h
  have h2 := congrArg Prod.snd h
  simp only [apply_ite Prod.fst, ite_self] at h1
  simp only [] at h2
  have hptr : ptr = alignDown ((block + GRANULARITY p / 2 + (align - 1)) %
      wordMod p) align := (Option.some.inj h1).symm
  refine ⟨ss, fl, sl, block, rfl, hfs, hhd, hptr, ?_⟩
  subst hptr
  rw [← h2, apply_ite Prod.snd, apply_ite TlsfState.crumbs]
  cases hnp : next_phys_block p block ((getRec s.mem block).sizeWord) <;>
    by_cases hga : GRANULARITY p ≤ align <;>
    simp [hga, apply_ite TlsfState.crumbs]

/-- **C1**: whenever `allocate (size, align)` with a power-of-two `align`
returns a pointer `ptr`, that pointer is a multiple of `align` (the payload
pointer is `block + sizeof(UsedBlockHdr)` rounded up to the alignment). -/
theorem allocate_aligned (p : Params) (s : TlsfState) (size align j ptr : Nat)
    (hal : align = 2 ^ j) (h : (allocate p s size align).1 = some ptr) :
    ptr % align = 0 := by
  have hpair : allocate p s size align =
      (some ptr, (allocate p s size align).2) := by
    rw [← h]
  obtain ⟨ss, fl, sl, block, -, -, -, hptr, -⟩ :=
    allocate_inv p s size align ptr _ hpair
  rw [hptr]
  exact alignDown_mod _ _

/-- **C1** (witness): allocating 32 bytes at alignment `8 = 2^3` from a
320-byte pool at address 1024 returns pointer 1040, and `1040 % 8 = 0`. -/
theorem allocate_aligned_witness :
    (8 : Nat) = 2 ^ 3 ∧ (allocate demoParams pool320 32 8).1 = some 1040 ∧
      1040 % 8 = 0 :=
  ⟨by decide, by decide,
    allocate_aligned demoParams pool320 32 8 3 1040 (by decide) (by decide)⟩

theorem bitScanForward_some (x start i : Nat)
    (h : bitScanForward x start = some i) : start ≤ i ∧ bit x i := by
  unfold bitScanForward at h
  have := List.find?_some h
  simpa using this

theorem map_ceil_some_fl_lt (p : Params) (m a b : Nat)
    (h : map_ceil p m = some (a, b)) : a < p.fllen := by
  unfold map_ceil at h
  simp only [] at h
  repeat' split at h
  all_goals cases h
  all_goals rename_i hcond
  all_goals try simp only [] at hcond
  all_goals try simp only []
  all_goals omega

theorem searchFlPhase_some (p : Params) (s : TlsfState) (fl fl2 sl2 : Nat)
    (h : searchFlPhase p s fl = some (fl2, sl2)) :
    fl2 < p.fllen ∧ sl2 < sllen p ∧ bit (s.slBitmap fl2) sl2 := by
  unfold searchFlPhase at h
  cases h1 : bitScanForward s.flBitmap (fl + 1) with
  | none => rw [h1] at h; cases h
  | some fl3 =>
    rw [h1] at h
    simp only [] at h
    split at h
    · rename_i hlt
      cases h2 : bitScanForward (s.slBitmap fl3) 0 with
      | none => rw [h2] at h; cases h
      | some sl3 =>
        rw [h2] at h
        simp only [] at h
        split at h
        · rename_i hsl
          have := Option.some.inj h
          obtain ⟨rfl, rfl⟩ : fl3 = fl2 ∧ sl3 = sl2 := by
            constructor <;> [exact congrArg Prod.fst this;
              exact congrArg Prod.snd this]
          exact ⟨hlt, hsl, (bitScanForward_some _ _ _ h2).2⟩
        · cases h
    · cases h

theorem searchSuitable_some (p : Params) (s : TlsfState) (minSize fl sl : Nat)
    (h : searchSuitable p s minSize = some (fl, sl)) :
    fl < p.fllen ∧ sl < sllen p ∧ bit (s.slBitmap fl) sl := by
  unfold searchSuitable at h
  cases hmc : map_ceil p minSize with
  | none => rw [hmc] at h; cases h
  | some flsl =>
    obtain ⟨fl0, sl0⟩ := flsl
    rw [hmc] at h
    simp only [] at h
    cases h1 : bitScanForward (s.slBitmap fl0) sl0 with
    | none =>
      rw [h1] at h
      exact searchFlPhase_some p s fl0 fl sl h
    | some sl2 =>
      rw [h1] at h
      simp only [] at h
      split at h
      · rename_i hsl
        have := Option.some.inj h
        obtain ⟨rfl, rfl⟩ : fl0 = fl ∧ sl2 = sl := by
          constructor <;> [exact congrArg Prod.fst this;
            exact congrArg Prod.snd this]
        exact ⟨map_ceil_some_fl_lt p minSize fl0 sl0 hmc, hsl,
          (bitScanForward_some _ _ _ h1).2⟩
      · exact searchFlPhase_some p s fl0 fl sl h

/-- **C7**: under the bitmap/head agreement that the allocator maintains,
`allocate` fails (returns `none`) in *exactly* two cases — the checked
computation of the search size overflows `usize`, or the bitmap search finds
no non-empty free list of sufficient size — and in both cases the state is
returned unchanged. -/
theorem allocate_failure_characterization (p : Params) (s : TlsfState)
    (size align : Nat) (hwf : BitmapHeadsAgree p s) :
    ((allocate p s size align).1 = none ↔
      searchSizeOf p size align = none ∨
        (∃ ss, searchSizeOf p size align = some ss ∧
          searchSuitable p s ss = none)) ∧
    ((allocate p s size align).1 = none → (allocate p s size align).2 = s) := by
  unfold allocate
  simp only []
  cases hss : searchSizeOf p size align with
  | none => simp
  | some ss =>
    simp only []
    cases hfs : searchSuitable p s ss with
    | none => simp [hfs]
    | some flsl =>
      obtain ⟨fl, sl⟩ := flsl
      obtain ⟨hfl, hsl, hbit⟩ := searchSuitable_some p s ss fl sl hfs
      have hne := hwf fl hfl sl hsl hbit
      simp only []
      cases hhd : s.firstFree fl sl with
      | none => exact absurd hhd hne
      | some block =>
        simp only []
        refine ⟨⟨fun hnone => ?_, ?_⟩, fun hnone => ?_⟩
        · exfalso
          simp only [apply_ite Prod.fst, ite_self] at hnone
          cases hnone
        · rintro (hc | ⟨ss', hss', hs'⟩)
          · cases hc
          · obtain rfl := Option.some.inj hss'
            rw [hfs] at hs'
            cases hs'
        · exfalso
          simp only [apply_ite Prod.fst, ite_self] at hnone
          cases hnone

/-- **C7** (witness): on the empty allocator (every bitmap zero, so the
agreement hypothesis holds trivially) the characterization applies to the
request `(size, align) = (100, 1)`. -/
theorem allocate_failure_characterization_witness :
    BitmapHeadsAgree demoParams INIT ∧
      (((allocate demoParams INIT 100 1).1 = none ↔
        searchSizeOf demoParams 100 1 = none ∨
          (∃ ss, searchSizeOf demoParams 100 1 = some ss ∧
            searchSuitable demoParams INIT ss = none)) ∧
       ((allocate demoParams INIT 100 1).1 = none →
         (allocate demoParams INIT 100 1).2 = INIT)) :=
  ⟨by decide,
    allocate_failure_characterization demoParams INIT 100 1 (by decide)⟩

/-- **C9**: header recovery round-trips with allocation.  If `allocate`
returns `ptr`, having popped the block header `block` from a free list, then
`used_block_hdr_for_allocation ptr align` on the post-state returns exactly
`block`: for `align ≥ GRANULARITY` it reads back the header pointer that
`allocate` wrote just before the payload, and for `align < GRANULARITY` the
header sits exactly `GRANULARITY/2` bytes before `ptr`. -/
theorem used_block_hdr_roundtrip (p : Params) (s : TlsfState)
    (size align j ptr : Nat) (hv : p.Valid) (hal : align = 2 ^ j)
    (hha : HeadsAligned p s)
    (h : (allocate p s size align).1 = some ptr) :
    ∃ block,
      (∃ ss fl sl, searchSizeOf p size align = some ss ∧
        searchSuitable p s ss = some (fl, sl) ∧
        s.firstFree fl sl = some block) ∧
      used_block_hdr_for_allocation p (allocate p s size align).2 ptr align =
        some block := by
  have hpair : allocate p s size align =
      (some ptr, (allocate p s size align).2) := by rw [← h]
  obtain ⟨ss, fl, sl, block, hss, hfs, hhd, hptr, hcr⟩ :=
    allocate_inv p s size align ptr _ hpair
  refine ⟨block, ⟨ss, fl, sl, hss, hfs, hhd⟩, ?_⟩
  unfold used_block_hdr_for_allocation
  by_cases hga : GRANULARITY p ≤ align
  · rw [if_pos hga, hcr, if_pos hga]
    simp [updCrumb]
  · rw [if_neg hga]
    obtain ⟨hfl, hsl, -⟩ := searchSuitable_some p s ss fl sl hfs
    have hall := hha fl hfl sl hsl
    rw [hhd] at hall
    have hba : GRANULARITY p ∣ block ∧ block + GRANULARITY p ≤ wordMod p := by
      simpa using hall
    obtain ⟨hdvd, hbnd⟩ := hba
    have hgpos : 0 < p.g := by
      rcases hv with ⟨h3, -, -⟩
      omega
    have hj : j < p.g := by
      subst hal
      by_contra hc
      push_neg at hc
      have h2 : (2 : Nat) ^ p.g ≤ 2 ^ j := Nat.pow_le_pow_right (by norm_num) hc
      have h3 := Nat.lt_of_not_le hga
      unfold GRANULARITY at h3
      omega
    have hg2 : GRANULARITY p / 2 = 2 ^ (p.g - 1) := by
      obtain ⟨k, hk⟩ : ∃ k, p.g = k + 1 := ⟨p.g - 1, by omega⟩
      unfold GRANULARITY
      rw [hk, Nat.pow_succ, Nat.add_sub_cancel]
      omega
    have hapos : 0 < align := by
      subst hal
      exact Nat.pow_pos (by norm_num)
    have hdvd2 : align ∣ block + GRANULARITY p / 2 := by
      subst hal
      refine Nat.dvd_add (dvd_trans ?_ hdvd) ?_
      · exact pow_dvd_pow 2 (le_of_lt hj)
      · rw [hg2]
        exact pow_dvd_pow 2 (by omega)
    have hlt : block + GRANULARITY p / 2 + (align - 1) < wordMod p := by
      have hale : align ≤ GRANULARITY p / 2 := by
        subst hal
        rw [hg2]
        exact Nat.pow_le_pow_right (by norm_num) (by omega)
      have hpos2 : 0 < GRANULARITY p / 2 := by
        rw [hg2]
        exact Nat.pow_pos (by norm_num)
      have hG2 : GRANULARITY p / 2 + GRANULARITY p / 2 ≤ GRANULARITY p := by
        unfold GRANULARITY at *
        omega
      omega
    rw [hptr, Nat.mod_eq_of_lt hlt]
    have hkey : alignDown (block + GRANULARITY p / 2 + (align - 1)) align =
        block + GRANULARITY p / 2 := by
      rw [alignDown_eq_mul_div, add_pred_div _ align hapos, if_pos hdvd2,
        Nat.add_zero, Nat.mul_div_cancel' hdvd2]
    rw [hkey]
    congr 1
    omega

/-- **C9** (witness): allocating 32 bytes at alignment `8 < GRANULARITY = 32`
from the 320-byte pool yields `ptr = 1040`, and the header is recovered at
`1040 - 16 = 1024`, the head popped from list `(3, 4)`. -/
theorem used_block_hdr_roundtrip_witness :
    demoParams.Valid ∧ (8 : Nat) = 2 ^ 3 ∧ HeadsAligned demoParams pool320 ∧
      (∃ block,
        (∃ ss fl sl, searchSizeOf demoParams 32 8 = some ss ∧
          searchSuitable demoParams pool320 ss = some (fl, sl) ∧
          pool320.firstFree fl sl = some block) ∧
        used_block_hdr_for_allocation demoParams
          (allocate demoParams pool320 32 8).2 1040 8 = some block) :=
  ⟨by decide, by decide, by decide,
    used_block_hdr_roundtrip demoParams pool320 32 8 3 1040 (by decide)
      (by decide) (by decide) (by decide)⟩

/-! ### C4: `reallocate` is destructive on failure -/

/-- Every `None` path of `allocate` returns the state unchanged. -/
theorem allocate_none_state (p : Params) (s : TlsfState) (size align : Nat)
    (h : (allocate p s size align).1 = none) :
    (allocate p s size align).2 = s := by
  unfold allocate at h ⊢
  simp only [] at h ⊢
  cases hss : searchSizeOf p size align with
  | none => rfl
  | some ss =>
    rw [hss] at h
    simp only [] at h ⊢
    cases hfs : searchSuitable p s ss with
    | none => rfl
    | some flsl =>
      obtain ⟨fl, sl⟩ := flsl
      rw [hfs] at h
      simp only [] at h ⊢
      cases hhd : s.firstFree fl sl with
      | none => rfl
      | some block =>
        rw [hhd] at h
        simp only [] at h
        exfalso
        simp only [apply_ite Prod.fst, ite_self] at h
        cases h

theorem getRec_updMem_self (m : Nat → Option BlockRec) (a : Nat)
    (r : BlockRec) : getRec (updMem m a r) a = r := by
  unfold getRec updMem
  simp

theorem sizeWord_setPrevPhysOf (m : Nat → Option BlockRec) (a : Nat)
    (v : Option Nat) (b : Nat) :
    (getRec (setPrevPhysOf m a v) b).sizeWord = (getRec m b).sizeWord := by
  unfold setPrevPhysOf updMem getRec
  by_cases h : b = a <;> simp [h]

theorem sizeWord_link_free_block (p : Params) (s : TlsfState) (blk sz x : Nat) :
    (getRec (link_free_block p s blk sz).mem x).sizeWord =
      (getRec s.mem x).sizeWord := by
  unfold link_free_block
  cases hmf : map_floor p sz with
  | none => rfl
  | some flsl =>
    obtain ⟨fl, sl⟩ := flsl
    simp only []
    unfold updMem getRec
    by_cases h : x = blk <;> simp [h]

theorem sizeWord_writeAndLinkFree (p : Params) (s : TlsfState)
    (blk2 sz2 : Nat) (nn : Option Nat) :
    (getRec (writeAndLinkFree p s blk2 sz2 nn).mem blk2).sizeWord = sz2 := by
  unfold writeAndLinkFree
  cases nn with
  | none =>
    simp only []
    rw [sizeWord_link_free_block]
    unfold setSizeWordOf
    rw [getRec_updMem_self]
  | some nnv =>
    simp only []
    rw [sizeWord_setPrevPhysOf, sizeWord_link_free_block]
    unfold setSizeWordOf
    rw [getRec_updMem_self]

theorem bit0_false_iff (y : Nat) : bit y 0 = false ↔ y % 2 = 0 := by
  simp only [bit, pow_zero, Nat.div_one, decide_eq_false_iff_not]
  omega

theorem clearBit0_mod2 (x : Nat) : clearBit x 0 % 2 = 0 := by
  unfold clearBit bit
  split
  · rename_i h
    simp only [pow_zero, Nat.div_one, decide_eq_true_eq] at h
    simp only [pow_zero]
    omega
  · rename_i h
    simp only [pow_zero, Nat.div_one, decide_eq_true_eq] at h
    omega

/-- The size word that `deallocate` writes into the (possibly merged) block
it links back to a free list always has the `SIZE_USED` bit clear: the old
pointer no longer denotes an allocated block. -/
theorem deallocate_clears_used (p : Params) (s : TlsfState)
    (ptr align block : Nat)
    (hhdr : used_block_hdr_for_allocation p s ptr align = some block) :
    bit ((getRec (deallocate p s ptr align).mem
      (deallocateCore p s ptr align).2).sizeWord) 0 = false := by
  unfold deallocate deallocateCore
  rw [hhdr]
  simp only []
  rw [sizeWord_writeAndLinkFree]
  have h0 : clearBit ((getRec s.mem block).sizeWord) 0 % 2 = 0 :=
    clearBit0_mod2 _
  cases hnp : next_phys_block p block ((getRec s.mem block).sizeWord) with
  | none =>
    simp only []
    cases hpp : (getRec s.mem block).prevPhys with
    | none =>
      simp only []
      rw [bit0_false_iff]
      omega
    | some pb =>
      simp only []
      by_cases hb2 : bit ((getRec s.mem pb).sizeWord) 0
      · rw [if_pos hb2]
        simp only []
        rw [bit0_false_iff]
        omega
      · rw [if_neg hb2]
        simp only []
        have hev2 : (getRec s.mem pb).sizeWord % 2 = 0 :=
          (bit0_false_iff _).1 (by simpa using hb2)
        rw [bit0_false_iff]
        omega
  | some np =>
    simp only []
    by_cases hb : bit ((getRec s.mem np).sizeWord) 0
    · rw [if_pos hb]
      simp only []
      cases hpp : (getRec s.mem block).prevPhys with
      | none =>
        simp only []
        rw [bit0_false_iff]
        omega
      | some pb =>
        simp only []
        by_cases hb2 : bit ((getRec s.mem pb).sizeWord) 0
        · rw [if_pos hb2]
          simp only []
          rw [bit0_false_iff]
          omega
        · rw [if_neg hb2]
          simp only []
          have hev2 : (getRec s.mem pb).sizeWord % 2 = 0 :=
            (bit0_false_iff _).1 (by simpa using hb2)
          rw [bit0_false_iff]
          omega
    · rw [if_neg hb]
      simp only []
      have hev : (getRec s.mem np).sizeWord % 2 = 0 :=
        (bit0_false_iff _).1 (by simpa using hb)
      cases hpp : (getRec (unlink_free_block p s np
          (alignDown ((getRec s.mem np).sizeWord) (GRANULARITY p))).mem
          block).prevPhys with
      | none =>
        simp only []
        rw [bit0_false_iff]
        omega
      | some pb =>
        simp only []
        by_cases hb2 : bit ((getRec (unlink_free_block p s np
            (alignDown ((getRec s.mem np).sizeWord) (GRANULARITY p))).mem
            pb).sizeWord) 0
        · rw [if_pos hb2]
          simp only []
          rw [bit0_false_iff]
          omega
        · rw [if_neg hb2]
          simp only []
          have hev2 : (getRec (unlink_free_block p s np
              (alignDown ((getRec s.mem np).sizeWord) (GRANULARITY p))).mem
              pb).sizeWord % 2 = 0 :=
            (bit0_false_iff _).1 (by simpa using hb2)
          rw [bit0_false_iff]
          omega

/-- **C4**: when the in-place resize fails and the subsequent allocation of
the new layout also fails, `reallocate` returns `none` with the state of the
allocator being exactly the one after `deallocate(ptr)` — the original block
has already been freed (its linked size word has `SIZE_USED` clear), so
`reallocate` is destructive on failure rather than atomic. -/
theorem reallocate_destructive_on_failure (p : Params) (s : TlsfState)
    (ptr size align block t : Nat)
    (hhdr : used_block_hdr_for_allocation p s ptr align = some block)
    (hck : checkedAdd (usizeBits p) size (GRANULARITY p - 1) = some t)
    (hrwm : (reallocate_without_moving p s ptr block
      (alignDown t (GRANULARITY p))).1 = none)
    (halloc : (allocate p (deallocate p s ptr align)
      (alignDown t (GRANULARITY p)) align).1 = none) :
    reallocate p s ptr size align = (none, deallocate p s ptr align) ∧
      bit ((getRec (deallocate p s ptr align).mem
        (deallocateCore p s ptr align).2).sizeWord) 0 = false := by
  refine ⟨?_, deallocate_clears_used p s ptr align block hhdr⟩
  unfold reallocate
  rw [hhdr]
  simp only []
  rw [hck]
  simp only []
  have hr : reallocate_without_moving p s ptr block
      (alignDown t (GRANULARITY p)) =
      (none, (reallocate_without_moving p s ptr block
        (alignDown t (GRANULARITY p))).2) := by
    rw [← hrwm]
  rw [hr]
  simp only []
  have h2 := allocate_none_state p (deallocate p s ptr align)
    (alignDown t (GRANULARITY p)) align halloc
  rw [Prod.ext_iff]
  exact ⟨halloc, h2⟩

/-- **C4** (witness): after allocating 32 bytes from the 320-byte pool,
asking `reallocate` to grow the 32-byte block at 1040 to 10000 bytes fails
in place (the free neighbor is too small) and the follow-up allocation also
fails (the pool is only 320 bytes); `reallocate` returns `none` and leaves
the allocator in the deallocated state, the freed block's size word showing
`SIZE_USED` clear. -/
theorem reallocate_destructive_on_failure_witness :
    used_block_hdr_for_allocation demoParams afterAlloc32 1040 1 =
        some 1024 ∧
      checkedAdd (usizeBits demoParams) 10000 (GRANULARITY demoParams - 1) =
        some 10031 ∧
      (reallocate_without_moving demoParams afterAlloc32 1040 1024
        (alignDown 10031 (GRANULARITY demoParams))).1 = none ∧
      (allocate demoParams (deallocate demoParams afterAlloc32 1040 1)
        (alignDown 10031 (GRANULARITY demoParams)) 1).1 = none ∧
      (reallocate demoParams afterAlloc32 1040 10000 1 =
        (none, deallocate demoParams afterAlloc32 1040 1) ∧
       bit ((getRec (deallocate demoParams afterAlloc32 1040 1).mem
         (deallocateCore demoParams afterAlloc32 1040 1).2).sizeWord) 0 =
           false) :=
  ⟨by decide, by decide, by decide, by decide,
    reallocate_destructive_on_failure demoParams afterAlloc32 1040 10000 1
      1024 10031 (by decide) (by decide) (by decide) (by decide)⟩

/-! ### Code bugs refuting C2, C3, C8 and C10 -/

/-- **C2** (refuted — code bug): `allocate (32, 1)` on the 320-byte pool pops
the only block of list `(fl, sl) = (3, 4)` and clears bitmap bit 4 of
`sl_bitmap[3]`, but leaves the stale head pointer in `first_free[3][4]`: at
this public-operation return boundary the bit is clear while the head is
non-null, violating the claimed invariant. -/
theorem bitmap_free_list_desync :
    (allocate demoParams pool320 32 1).1 = some 1040 ∧
      bit (afterAlloc32.slBitmap 3) 4 = false ∧
      afterAlloc32.firstFree 3 4 = some 1024 := by decide

/-- **C3** (refuted — code bug): shrinking the 96-byte used block at 1024
(payload pointer 1040) to 48 bytes takes the in-place path and returns the
pointer unchanged, but the carve-off size is computed as
`shrink_by = new_size - old_size`, which underflows the machine word; after
merging with the following 928-byte free block the new free block at 1072
records size 880 instead of `(96 - 48) + 928 = 976`. -/
theorem shrink_carve_size_wrong :
    (reallocate demoParams (allocate demoParams pool1024 64 1).2
        1040 32 1).1 = some 1040 ∧
      (getRec (reallocate demoParams (allocate demoParams pool1024 64 1).2
        1040 32 1).2.mem 1072).sizeWord = 880 ∧
      (880 : Nat) ≠ 96 - 48 + 928 := by decide

/-- **C8** (refuted — code bug): inserting a 16352-byte range with
`MAX_POOL_SIZE = 8160` should carve chunks at 1024 and 9184 (and a 32-byte
remainder), but the chunk loop never advances its cursor: address 9184 is
never written, and the header at 1024 ends up describing only the final
32-byte chunk (size word `34 = 32 | SIZE_LAST_IN_POOL`). -/
theorem insert_chunk_cursor_stuck :
    maxPoolSize smallParams = some 8160 ∧
      (insert_free_block_ptr smallParams INIT 1024 16352).mem 9184 = none ∧
      (insert_free_block_ptr smallParams INIT 1024 16352).mem 1024 =
        some ⟨34, none, none, none⟩ := by decide

/-- **C10** (refuted — code bug): for an 8192-byte region split into chunks
of 8160 and 32 bytes, the loop writes both chunk headers at the same address
1024, so the second chunk's header never exists at 9184 and the surviving
header describes a 32-byte `LAST_IN_POOL` block — the claimed per-chunk
layout (every chunk individually terminated, preventing coalescing across
chunk boundaries) never materializes in memory. -/
theorem chunk_boundary_not_written :
    (insert_free_block_ptr smallParams INIT 1024 8192).mem 9184 = none ∧
      (insert_free_block_ptr smallParams INIT 1024 8192).mem 1024 =
        some ⟨34, none, none, none⟩ ∧
      bit ((getRec (insert_free_block_ptr smallParams INIT 1024 8192).mem
        1024).sizeWord) 1 = true := by decide

end Rlsf

namespace Rlsf

/-- **C6** (witness for the amended claim): at `size = 2016`,
`map_floor = (5, 15)` and `map_ceil = (6, 0)`; the fl components satisfy
`5 ≤ 6` and the sl comparison holds vacuously since `5 ≠ 6`. -/
theorem map_floor_le_map_ceil_amended_witness :
    2 ^ demoParams.g ≤ 2016 ∧ 2 ^ demoParams.g ∣ 2016 ∧
      2016 < 2 ^ usizeBits demoParams ∧
      map_floor demoParams 2016 = some (5, 15) ∧
      map_ceil demoParams 2016 = some (6, 0) ∧
      ((5 : Nat) ≤ 6 ∧ ((5 : Nat) = 6 → (15 : Nat) ≤ 0)) :=
  ⟨by decide, by decide, by decide, by decide, by decide,
    map_floor_le_map_ceil_amended demoParams 2016 (5, 15) (6, 0) (by decide)
      (by decide) (by decide) (by decide) (by decide)⟩

end Rlsf
